import Mathlib

/-!
Shallow embedding of the CarbonPro trading-engine core: the in-memory
limit order book (`OrderBook`: `addOrder`, `findMatches`, `getSnapshot`),
the matching pass of `RealTimeTradingEngine` (`attemptOrderMatching`,
`executeMatch`), the `PriceEngine` statistics (`getVWAP`, `getLastPrice`,
`getPriceChange`) and the analytics worker functions of
`carbon-worker.js` (`calculateVolatility`, `processMarketData`'s moving
average, `calculateOrderBookAnalytics`'s depth/imbalance).

Prices, quantities and monetary values are modelled as rationals;
timestamps (JS `Date.getTime()` milliseconds) as integers.  JS `Map`s are
modelled as insertion-ordered association lists (`Map.keys()` iterates in
insertion order; `Map.set` on a fresh key appends).  The stable
`Array.prototype.sort` is modelled by the stable `List.insertionSort`.
Database writes performed by the engine are external effects and are not
part of the in-memory state transition being verified.
-/

/-- Trading order as stored by the engine (a row of `trading_orders`).
Only the fields the order book and matching code read are modelled.
`order_type` is kept as a raw string because the source dispatches on
`order_type === 'buy'` and routes every other value to the sell side. -/
structure Order where
  order_id : Nat
  user_id : Nat
  credit_id : Nat
  order_type : String
  price : ℚ
  quantity : ℚ
  filled_quantity : ℚ
  remaining_quantity : ℚ
  created_at : ℤ
  deriving DecidableEq, Repr

/-- One side of the book: JS `Map<number, Order[]>` as an insertion-ordered
association list from price to the orders resting at that price. -/
abbrev SideMap := List (ℚ × List Order)

/-- Comparator used by `addOrder`'s `sort((a, b) => ta - tb)`: ascending
creation timestamp. -/
def createdLe (a b : Order) : Prop := a.created_at ≤ b.created_at

instance : DecidableRel createdLe :=
  fun a b => inferInstanceAs (Decidable (a.created_at ≤ b.created_at))

instance : IsTotal Order createdLe := ⟨fun a b => le_total a.created_at b.created_at⟩

instance : IsTrans Order createdLe := ⟨fun _ _ _ => le_trans⟩

/-- The stable sort `orders.sort(...)` by creation timestamp in `addOrder`. -/
def sortByCreated (os : List Order) : List Order := os.insertionSort createdLe

/-- JS `orderMap.get(price)` with a missing key read as the empty level. -/
def levelOf (m : SideMap) (p : ℚ) : List Order :=
  match m.find? (fun e => decide (e.1 = p)) with
  | some e => e.2
  | none => []

/-- JS `orderMap.has(price)`. -/
def hasPrice (m : SideMap) (p : ℚ) : Bool :=
  (m.find? (fun e => decide (e.1 = p))).isSome

/-- Body of `OrderBook.addOrder` acting on one side: ensure the price level
exists (`Map.set` appends a fresh key), push the order, and re-sort that
level by creation timestamp. -/
def sideMapAdd (m : SideMap) (o : Order) : SideMap :=
  if hasPrice m o.price then
    m.map (fun e => if e.1 = o.price then (e.1, sortByCreated (e.2 ++ [o])) else e)
  else
    m ++ [(o.price, sortByCreated [o])]

/-- JS `Map.set(k, v)` on the order index: overwrite an existing key in
place, otherwise append. -/
def indexSet (idx : List (Nat × Order)) (k : Nat) (o : Order) :
    List (Nat × Order) :=
  if (idx.find? (fun e => decide (e.1 = k))).isSome then
    idx.map (fun e => if e.1 = k then (k, o) else e)
  else
    idx ++ [(k, o)]

/-- Reading the order-id index, JS `orderIndex.get(id)`. -/
def indexGet (idx : List (Nat × Order)) (k : Nat) : Option Order :=
  (idx.find? (fun e => decide (e.1 = k))).map Prod.snd

/-- State of the `OrderBook` class: buy levels, sell levels and the
order-id index. -/
structure OrderBook where
  buyOrders : SideMap
  sellOrders : SideMap
  orderIndex : List (Nat × Order)
  deriving DecidableEq, Repr

/-- The freshly constructed (or `clear()`ed) book. -/
def OrderBook.empty : OrderBook := ⟨[], [], []⟩

/-- `OrderBook.addOrder`: index the order, then insert it into the side
selected by `order_type === 'buy'` (any other side string goes to the sell
map) and keep that price level sorted by creation timestamp. -/
def addOrder (b : OrderBook) (o : Order) : OrderBook :=
  if o.order_type = "buy" then
    { b with orderIndex := indexSet b.orderIndex o.order_id o
             buyOrders := sideMapAdd b.buyOrders o }
  else
    { b with orderIndex := indexSet b.orderIndex o.order_id o
             sellOrders := sideMapAdd b.sellOrders o }

/-- Ascending price order, the JS comparator `(a, b) => a - b`. -/
def priceAsc (a b : ℚ) : Prop := a ≤ b

/-- Descending price order, the JS comparator `(a, b) => b - a`. -/
def priceDesc (a b : ℚ) : Prop := b ≤ a

instance : DecidableRel priceAsc := fun a b => inferInstanceAs (Decidable (a ≤ b))

instance : DecidableRel priceDesc := fun a b => inferInstanceAs (Decidable (b ≤ a))

instance : IsTotal ℚ priceAsc := ⟨fun a b => le_total a b⟩

instance : IsTrans ℚ priceAsc := ⟨fun _ _ _ => le_trans⟩

instance : IsTotal ℚ priceDesc := ⟨fun a b => le_total b a⟩

instance : IsTrans ℚ priceDesc := ⟨fun _ _ _ h1 h2 => le_trans h2 h1⟩

/-- `OrderBook.findMatches`: scan the opposite side's price keys in sorted
order (ascending for an incoming buy, descending otherwise), stop (`break`)
at the first price that does not cross the incoming limit — modelled by
`takeWhile` — and collect, level by level in stored order, the resting
orders with positive remaining quantity. -/
def findMatches (b : OrderBook) (o : Order) : List Order :=
  let oppositeMap := if o.order_type = "buy" then b.sellOrders else b.buyOrders
  let sortedPrices :=
    if o.order_type = "buy" then (oppositeMap.map Prod.fst).insertionSort priceAsc
    else (oppositeMap.map Prod.fst).insertionSort priceDesc
  let scanned := sortedPrices.takeWhile (fun p =>
    if o.order_type = "buy" then decide (p ≤ o.price) else decide (o.price ≤ p))
  scanned.flatMap (fun p =>
    (levelOf oppositeMap p).filter (fun x => decide (0 < x.remaining_quantity)))

/-- One aggregated row of the snapshot: price, summed remaining quantity,
order count. -/
structure BookLevel where
  price : ℚ
  quantity : ℚ
  orderCount : Nat
  deriving DecidableEq, Repr

/-- Result of `OrderBook.getSnapshot`. -/
structure MarketSnapshot where
  buyLevels : List BookLevel
  sellLevels : List BookLevel
  spread : ℚ
  deriving DecidableEq, Repr

/-- Ascending sort order on aggregated levels (`(a, b) => a.price - b.price`). -/
def levelAsc (x y : BookLevel) : Prop := x.price ≤ y.price

/-- Descending sort order on aggregated levels (`(a, b) => b.price - a.price`). -/
def levelDesc (x y : BookLevel) : Prop := y.price ≤ x.price

instance : DecidableRel levelAsc := fun x y => inferInstanceAs (Decidable (x.price ≤ y.price))

instance : DecidableRel levelDesc := fun x y => inferInstanceAs (Decidable (y.price ≤ x.price))

instance : IsTotal BookLevel levelAsc := ⟨fun x y => le_total x.price y.price⟩

instance : IsTrans BookLevel levelAsc := ⟨fun _ _ _ => le_trans⟩

instance : IsTotal BookLevel levelDesc := ⟨fun x y => le_total y.price x.price⟩

instance : IsTrans BookLevel levelDesc := ⟨fun _ _ _ h1 h2 => le_trans h2 h1⟩

/-- The `([price, orders]) => ({price, quantity, orderCount})` mapper of
`getSnapshot` (`parseFloat(price.toString())` is the identity here). -/
def aggregateLevel (e : ℚ × List Order) : BookLevel :=
  ⟨e.1, (e.2.map Order.remaining_quantity).sum, e.2.length⟩

/-- `OrderBook.getSnapshot`: aggregate each price level, sort buy levels by
price descending and sell levels ascending, and take the spread from the
two front levels when both sides are non-empty, else `0`. -/
def getSnapshot (b : OrderBook) : MarketSnapshot :=
  let buyLevels := (b.buyOrders.map aggregateLevel).insertionSort levelDesc
  let sellLevels := (b.sellOrders.map aggregateLevel).insertionSort levelAsc
  { buyLevels := buyLevels
    sellLevels := sellLevels
    spread :=
      match sellLevels, buyLevels with
      | s :: _, c :: _ => s.price - c.price
      | _, _ => 0 }

/-- Transaction row built by `RealTimeTradingEngine.executeMatch` (the
fields the matching logic computes; ids and hashes are external). -/
structure TradeRecord where
  buyer_id : Nat
  seller_id : Nat
  quantity : ℚ
  price_per_ton : ℚ
  deriving DecidableEq, Repr

/-- In-memory effect of `executeMatch(buyOrder, sellOrder)`: quantity is
`Math.min` of the two `remaining_quantity` fields as read at call time, and
price is `buyOrder.price` — the price of the FIRST argument.  The database
writes it then issues do not mutate the engine's in-memory state. -/
def executeMatch (buyOrder sellOrder : Order) : TradeRecord :=
  { buyer_id := buyOrder.user_id
    seller_id := sellOrder.user_id
    quantity := min buyOrder.remaining_quantity sellOrder.remaining_quantity
    price_per_ton := buyOrder.price }

/-- `RealTimeTradingEngine.attemptOrderMatching`: find all matches for the
incoming order, then call `executeMatch(newOrder, match)` for each one in
turn.  Nothing in the loop mutates `newOrder` or the book, so the pass is a
plain map over the match list. -/
def attemptOrderMatching (b : OrderBook) (newOrder : Order) : List TradeRecord :=
  (findMatches b newOrder).map (fun m => executeMatch newOrder m)

/-- Trade as recorded by `PriceEngine.addTrade`. -/
structure PETrade where
  price : ℚ
  quantity : ℚ
  timestamp : ℤ
  creditId : Nat
  deriving DecidableEq, Repr

/-- `PriceEngine.getVWAP`: filter the recent trades to the instrument and
to timestamps at or after `now - timeWindow`; return `null` when nothing
matched, else the value-weighted mean guarded by `totalQuantity > 0`. -/
def getVWAP (recentTrades : List PETrade) (creditId : Nat)
    (now timeWindow : ℤ) : Option ℚ :=
  let cutoff := now - timeWindow
  let relevantTrades := recentTrades.filter
    (fun t => decide (t.creditId = creditId) && decide (cutoff ≤ t.timestamp))
  if relevantTrades.isEmpty then none
  else
    let totalValue := (relevantTrades.map (fun t => t.price * t.quantity)).sum
    let totalQuantity := (relevantTrades.map PETrade.quantity).sum
    if 0 < totalQuantity then some (totalValue / totalQuantity) else none

/-- `PriceEngine.getLastPrice` on the instrument's price history (a missing
`priceHistory` entry is the empty list). -/
def getLastPrice (trades : List PETrade) : Option ℚ :=
  match trades.getLast? with
  | some t => some t.price
  | none => none

/-- Result record of `PriceEngine.getPriceChange`. -/
structure PriceChange where
  absolute : ℚ
  percentage : ℚ
  deriving DecidableEq, Repr

/-- `PriceEngine.getPriceChange`: `null` when fewer than 2 trades are
recorded; otherwise baseline := the first recorded trade with timestamp at
or before `now - timeWindow` (`trades.find(t => t.timestamp <= cutoff)`),
and `null` when there is no such baseline or the last price is falsy
(JS `!currentPrice` is true for both `null` and `0`). -/
def getPriceChange (trades : List PETrade) (now timeWindow : ℤ) :
    Option PriceChange :=
  if trades.length < 2 then none
  else
    let cutoff := now - timeWindow
    let currentPrice := getLastPrice trades
    let historicalTrade := trades.find? (fun t => decide (t.timestamp ≤ cutoff))
    match historicalTrade, currentPrice with
    | some h, some c =>
        if c = 0 then none
        else some ⟨c - h.price, (c - h.price) / h.price * 100⟩
    | _, _ => none

/-- Radicand of `calculateVolatility` in `carbon-worker.js`: `0` for fewer
than 2 prices, else `Σ (p - mean)² / n` with `mean = Σ p / n`.  The
function itself returns `Math.sqrt` of this value, so the returned
volatility is the square root of `calculateVolatilityVariance`. -/
def calculateVolatilityVariance (prices : List ℚ) : ℚ :=
  if prices.length < 2 then 0
  else
    let mean := prices.sum / (prices.length : ℚ)
    (prices.map (fun p => (p - mean) ^ 2)).sum / (prices.length : ℚ)

/-- Moving-average entry computed by `processMarketData` at `index`:
`windowSize = min(5, index + 1)`, window = `slice(max(0, index -
windowSize + 1), index + 1)`, value = window mean (before display
rounding). -/
def movingAverageAt (rawData : List ℚ) (index : Nat) : ℚ :=
  let windowSize : ℤ := min 5 ((index : ℤ) + 1)
  let start := (max 0 ((index : ℤ) - windowSize + 1)).toNat
  let window := (rawData.take (index + 1)).drop start
  window.sum / (window.length : ℚ)

/-- The trailing window `processMarketData` averages at `index`, written
per the spec as the last `min(5, index + 1)` points ending at `index`. -/
def specTrailingWindow (rawData : List ℚ) (index : Nat) : List ℚ :=
  (rawData.take (index + 1)).drop (index + 1 - 5)

/-- Sample variance per the spec's words for `volatility`: squared
deviations from the mean divided by `n - 1`. -/
def specSampleVariance (prices : List ℚ) : ℚ :=
  let mean := prices.sum / (prices.length : ℚ)
  (prices.map (fun p => (p - mean) ^ 2)).sum / ((prices.length : ℚ) - 1)

/-- Population variance in moment form, `Σ p² / n - mean²`, used to state
what the worker's variance actually is. -/
def specPopVariance (prices : List ℚ) : ℚ :=
  (prices.map (fun p => p ^ 2)).sum / (prices.length : ℚ)
    - (prices.sum / (prices.length : ℚ)) ^ 2

/-- The `reduce((sum, level) => sum + level.quantity, 0)` depth sum of
`calculateOrderBookAnalytics`, applied to each side's levels. -/
def depthOf (levels : List BookLevel) : ℚ := (levels.map BookLevel.quantity).sum

/-- The imbalance expression of `calculateOrderBookAnalytics`:
`buyDepth / (buyDepth + sellDepth) - 0.5`.  In JS this divides even when
the divisor is `0` (yielding `NaN`); here the division is the total
rational division, and the divisor-zero case is tracked by theorems about
`depthOf`. -/
def orderImbalance (buyLevels sellLevels : List BookLevel) : ℚ :=
  depthOf buyLevels / (depthOf buyLevels + depthOf sellLevels) - 1 / 2

/-- Match list per the spec's words: the resting orders of the opposite
side whose price level crosses the incoming limit and whose remaining
quantity is positive, in price priority (ascending ask prices for a buy,
descending bid prices for a sell), FIFO within each level. -/
def specFindMatches (b : OrderBook) (o : Order) : List Order :=
  if o.order_type = "buy" then
    ((((b.sellOrders.map Prod.fst).insertionSort priceAsc).filter
        (fun p => decide (p ≤ o.price))).flatMap
      (fun p => levelOf b.sellOrders p)).filter
        (fun x => decide (0 < x.remaining_quantity))
  else
    ((((b.buyOrders.map Prod.fst).insertionSort priceDesc).filter
        (fun p => decide (o.price ≤ p))).flatMap
      (fun p => levelOf b.buyOrders p)).filter
        (fun x => decide (0 < x.remaining_quantity))

/-- On a list sorted for a relation along which failing the predicate is
upward-closed, cutting the scan at the first failure loses nothing. -/
theorem takeWhile_eq_filter_of_sorted {α : Type} {p : α → Bool}
    {R : α → α → Prop}
    (hmono : ∀ a b, R a b → p a = false → p b = false) :
    ∀ l : List α, l.Pairwise R → l.takeWhile p = l.filter p
  | [], _ => rfl
  | a :: t, hl => by
    rw [List.pairwise_cons] at hl
    by_cases hp : p a = true
    · rw [List.takeWhile_cons_of_pos hp, List.filter_cons_of_pos hp,
        takeWhile_eq_filter_of_sorted hmono t hl.2]
    · have hpa : p a = false := by simpa using hp
      rw [List.takeWhile_cons_of_neg hp, List.filter_cons_of_neg hp]
      symm
      rw [List.filter_eq_nil_iff]
      intro x hx
      have := hmono a x (hl.1 x hx) hpa
      simp [this]

/-- Claim C3: `findMatches` returns exactly the resting orders of the
opposite side whose price crosses the incoming limit (`p ≤ buy price`
resp. `p ≥ sell price`) and whose remaining quantity is positive, in
price priority (ascending asks for a buy, descending bids for a sell)
with FIFO order inside each level, and the `break` at the first
non-crossing price level is harmless because the scan is price-sorted:
the break-scan equals the full crossing filter. -/
theorem C3_findMatches_eq_spec (b : OrderBook) (o : Order) :
    findMatches b o = specFindMatches b o := by
  by_cases hbuy : o.order_type = "buy"
  · simp only [findMatches, specFindMatches, hbuy, reduceIte]
    rw [takeWhile_eq_filter_of_sorted
        (fun a c hac hfa => by
          simp only [decide_eq_false_iff_not, not_le] at hfa ⊢
          exact lt_of_lt_of_le hfa hac)
        _ (List.sorted_insertionSort priceAsc _),
      List.filter_flatMap]
  · simp only [findMatches, specFindMatches, hbuy, reduceIte]
    rw [takeWhile_eq_filter_of_sorted
        (fun a c hac hfa => by
          simp only [decide_eq_false_iff_not, not_le] at hfa ⊢
          exact lt_of_le_of_lt hac hfa)
        _ (List.sorted_insertionSort priceDesc _),
      List.filter_flatMap]

/-- Resting buy order used for the C1 counterexample: buy 10 tons at 25. -/
def c1RestingBuy : Order := ⟨1, 10, 7, "buy", 25, 10, 0, 10, 100⟩

/-- Incoming sell order used for the C1 counterexample: sell 6 tons at 24. -/
def c1IncomingSell : Order := ⟨2, 20, 7, "sell", 24, 6, 0, 6, 200⟩

/-- Book holding only the resting buy at 25. -/
def c1Book : OrderBook := addOrder OrderBook.empty c1RestingBuy

/-- Claim C1 counterexample: an incoming sell at 24 matches the resting
buy at 25, and the executed trade price is 24 — the incoming (taker)
order's limit, not the resting (maker) buy's 25 as the claim states.
`executeMatch` reads the price from its first argument, which
`attemptOrderMatching` passes the incoming order into. -/
theorem C1_counterexample :
    (attemptOrderMatching c1Book c1IncomingSell).map TradeRecord.price_per_ton
        = [24]
    ∧ c1RestingBuy.price = 25 ∧ (24 : ℚ) ≠ 25 := by
  refine ⟨by decide, by decide, by decide⟩

/-- Claim C1 (amended): every trade produced by a matching pass carries
the incoming (taker) order's limit price — `executeMatch` uses
`buyOrder.price` where `buyOrder` is its first argument, and
`attemptOrderMatching` always passes the incoming order first. -/
theorem C1_amended_taker_price (b : OrderBook) (o : Order) :
    ∀ t ∈ attemptOrderMatching b o, t.price_per_ton = o.price := by
  intro t ht
  obtain ⟨m, _, rfl⟩ := List.mem_map.mp ht
  rfl

/-- Witness for C1 (amended) at the concrete counterexample book. -/
theorem C1_amended_witness :
    executeMatch c1IncomingSell c1RestingBuy
        ∈ attemptOrderMatching c1Book c1IncomingSell
    ∧ (executeMatch c1IncomingSell c1RestingBuy).price_per_ton
        = c1IncomingSell.price :=
  ⟨by decide, C1_amended_taker_price c1Book c1IncomingSell _ (by decide)⟩

/-- First resting sell for the C2 failing input: sell 10 tons at 5. -/
def c2Sell1 : Order := ⟨3, 30, 7, "sell", 5, 10, 0, 10, 100⟩

/-- Second resting sell for the C2 failing input: sell 10 tons at 5. -/
def c2Sell2 : Order := ⟨4, 40, 7, "sell", 5, 10, 0, 10, 150⟩

/-- Incoming buy for the C2 failing input: buy 10 tons at 10. -/
def c2Buy : Order := ⟨5, 50, 7, "buy", 10, 10, 0, 10, 300⟩

/-- Book holding the two resting sells of 10 tons each. -/
def c2Book : OrderBook := addOrder (addOrder OrderBook.empty c2Sell1) c2Sell2

/-- Claim C2, evaluated at the failing input: the matching pass for an
incoming buy with remaining quantity 10 executes a trade of quantity 10
against EACH of the two resting sells — 20 tons in total, double the
incoming order's quantity.  `attemptOrderMatching` loops over all matches
without decrementing the in-memory `remaining_quantity` of either side and
without the `remaining == 0` stop the spec prescribes, so the second
`Math.min` still sees the stale 10. -/
theorem C2_overfill_eval :
    (attemptOrderMatching c2Book c2Buy).map TradeRecord.quantity = [10, 10]
    ∧ c2Buy.remaining_quantity = 10
    ∧ ((attemptOrderMatching c2Book c2Buy).map TradeRecord.quantity).sum = 20 := by
  have h1 : (attemptOrderMatching c2Book c2Buy).map TradeRecord.quantity
      = [10, 10] := by decide
  refine ⟨h1, by decide, ?_⟩
  rw [h1]
  norm_num

/-- Membership is preserved by the timestamp sort. -/
theorem mem_sortByCreated {a : Order} {l : List Order} :
    a ∈ sortByCreated l ↔ a ∈ l :=
  (List.perm_insertionSort createdLe l).mem_iff

/-- The pair projection of the level rewrite inside `sideMapAdd` keeps the
price key. -/
theorem sideMapAdd_fst (o : Order) (e : ℚ × List Order) :
    ((if e.1 = o.price then (e.1, sortByCreated (e.2 ++ [o])) else e)).1 = e.1 := by
  split <;> rfl

/-- After `sideMapAdd m o`, the level stored at `o.price` contains `o`. -/
theorem mem_levelOf_sideMapAdd (m : SideMap) (o : Order) :
    o ∈ levelOf (sideMapAdd m o) o.price := by
  unfold sideMapAdd
  by_cases hhas : hasPrice m o.price = true
  · rw [if_pos hhas]
    unfold hasPrice at hhas
    obtain ⟨e, he⟩ := Option.isSome_iff_exists.mp hhas
    have hkey : ∀ x : ℚ × List Order,
        ((fun y => decide (y.1 = o.price)) ∘
            (fun y => if y.1 = o.price then (y.1, sortByCreated (y.2 ++ [o])) else y)) x
          = (fun y => decide (y.1 = o.price)) x := by
      intro x
      simp only [Function.comp_apply, sideMapAdd_fst]
    unfold levelOf
    rw [List.find?_map, funext hkey, he]
    have hep : e.1 = o.price := by
      have := List.find?_some he
      simpa using this
    rw [Option.map_some', if_pos hep]
    exact mem_sortByCreated.mpr (List.mem_append_right _ (List.mem_singleton.mpr rfl))
  · rw [if_neg hhas]
    unfold hasPrice at hhas
    have hnone : m.find? (fun e => decide (e.1 = o.price)) = none := by
      cases hfind : m.find? (fun e => decide (e.1 = o.price)) with
      | none => rfl
      | some e => exact absurd (by rw [hfind]; rfl) hhas
    unfold levelOf
    rw [List.find?_append, hnone, Option.none_or,
      List.find?_cons_of_pos _ (by simp)]
    exact mem_sortByCreated.mpr (List.mem_singleton.mpr rfl)

/-- After `indexSet idx k o`, looking up `k` yields `o`. -/
theorem indexGet_indexSet (idx : List (Nat × Order)) (k : Nat) (o : Order) :
    indexGet (indexSet idx k o) k = some o := by
  unfold indexSet
  by_cases hhas : (idx.find? (fun e => decide (e.1 = k))).isSome = true
  · rw [if_pos hhas]
    obtain ⟨e, he⟩ := Option.isSome_iff_exists.mp hhas
    have hkey : ∀ x : Nat × Order,
        ((fun y => decide (y.1 = k)) ∘ (fun y => if y.1 = k then (k, o) else y)) x
          = (fun y => decide (y.1 = k)) x := by
      intro x
      by_cases hx : x.1 = k <;> simp [hx]
    unfold indexGet
    rw [List.find?_map, funext hkey, he]
    have hek : e.1 = k := by
      have := List.find?_some he
      simpa using this
    simp [hek]
  · rw [if_neg hhas]
    have hnone : idx.find? (fun e => decide (e.1 = k)) = none := by
      cases hfind : idx.find? (fun e => decide (e.1 = k)) with
      | none => rfl
      | some e => exact absurd (by rw [hfind]; rfl) hhas
    unfold indexGet
    rw [List.find?_append, hnone, Option.none_or,
      List.find?_cons_of_pos _ (by simp)]
    rfl

/-- Malformed order used against claim C4: negative price and quantity. -/
def c4Invalid : Order := ⟨99, 9, 7, "buy", -1, -2, 0, -2, 50⟩

/-- Claim C4 counterexample: `addOrder` accepts an order with price ≤ 0 and
quantity ≤ 0 without any error and mutates the book — the order lands on
the buy side at price level −1 and in the order index.  No
`InvalidOrderError` (or validation of any kind) exists in the source. -/
theorem C4_counterexample :
    c4Invalid.price ≤ 0 ∧ c4Invalid.quantity ≤ 0
    ∧ addOrder OrderBook.empty c4Invalid ≠ OrderBook.empty
    ∧ levelOf (addOrder OrderBook.empty c4Invalid).buyOrders (-1) = [c4Invalid] := by
  refine ⟨by decide, by decide, by decide, by decide⟩

/-- Claim C4 (amended): `addOrder` performs no validation and cannot fail:
every order — whatever its price, quantity or side string — is recorded in
the order index and appended to the price level of its side (`order_type`
values other than `"buy"` all go to the sell map). -/
theorem C4_amended_no_validation (b : OrderBook) (o : Order) :
    indexGet (addOrder b o).orderIndex o.order_id = some o
    ∧ (o.order_type = "buy" → o ∈ levelOf (addOrder b o).buyOrders o.price)
    ∧ (o.order_type ≠ "buy" → o ∈ levelOf (addOrder b o).sellOrders o.price) := by
  unfold addOrder
  by_cases hbuy : o.order_type = "buy"
  · rw [if_pos hbuy]
    exact ⟨indexGet_indexSet _ _ _,
      fun _ => mem_levelOf_sideMapAdd _ _,
      fun h => absurd hbuy h⟩
  · rw [if_neg hbuy]
    exact ⟨indexGet_indexSet _ _ _,
      fun h => absurd h hbuy,
      fun _ => mem_levelOf_sideMapAdd _ _⟩

/-- Witness for C4 (amended): the malformed order of the counterexample is
indexed and resting on the buy side after `addOrder`. -/
theorem C4_amended_witness :
    indexGet (addOrder OrderBook.empty c4Invalid).orderIndex c4Invalid.order_id
        = some c4Invalid
    ∧ c4Invalid ∈ levelOf (addOrder OrderBook.empty c4Invalid).buyOrders
        c4Invalid.price :=
  ⟨(C4_amended_no_validation OrderBook.empty c4Invalid).1,
    (C4_amended_no_validation OrderBook.empty c4Invalid).2.1 (by decide)⟩

/-- A price level in FIFO order: creation timestamps ascending. -/
def levelSorted (os : List Order) : Prop := List.Sorted createdLe os

/-- Every price level of the book, on both sides, is in FIFO order. -/
def bookFIFO (b : OrderBook) : Prop :=
  (∀ e ∈ b.buyOrders, levelSorted e.2) ∧ (∀ e ∈ b.sellOrders, levelSorted e.2)

/-- The re-sort inside `addOrder` leaves the touched level sorted. -/
theorem levelSorted_sortByCreated (os : List Order) :
    levelSorted (sortByCreated os) :=
  List.sorted_insertionSort createdLe os

/-- `sideMapAdd` preserves FIFO order of every level. -/
theorem sideMapAdd_sorted (m : SideMap) (o : Order)
    (h : ∀ e ∈ m, levelSorted e.2) :
    ∀ e ∈ sideMapAdd m o, levelSorted e.2 := by
  intro e he
  unfold sideMapAdd at he
  split at he
  · obtain ⟨e₀, he₀, rfl⟩ := List.mem_map.mp he
    split
    · exact levelSorted_sortByCreated _
    · exact h e₀ he₀
  · rcases List.mem_append.mp he with h₁ | h₂
    · exact h e h₁
    · rw [List.mem_singleton.mp h₂]
      exact levelSorted_sortByCreated _

/-- One `addOrder` step preserves FIFO order of every level of the book. -/
theorem addOrder_fifo (b : OrderBook) (o : Order) (hb : bookFIFO b) :
    bookFIFO (addOrder b o) := by
  unfold addOrder
  split
  · exact ⟨sideMapAdd_sorted _ _ hb.1, hb.2⟩
  · exact ⟨hb.1, sideMapAdd_sorted _ _ hb.2⟩

/-- Folding `addOrder` over any order sequence preserves FIFO order. -/
theorem bookFIFO_foldl : ∀ (orders : List Order) (b : OrderBook),
    bookFIFO b → bookFIFO (orders.foldl addOrder b)
  | [], _, hb => hb
  | a :: t, b, hb => bookFIFO_foldl t (addOrder b a) (addOrder_fifo b a hb)

/-- Claim C5: `addOrder` preserves the FIFO (timestamp-ascending) order of
every price level, and any sequence of `addOrder` calls with strictly
increasing creation timestamps, starting from the empty book, leaves every
price level sorted by creation timestamp ascending.  (The re-sort on every
insert in fact guarantees this for arbitrary timestamps.) -/
theorem C5_fifo_invariant :
    (∀ (b : OrderBook) (o : Order), bookFIFO b → bookFIFO (addOrder b o))
    ∧ ∀ orders : List Order,
        (orders.map Order.created_at).Pairwise (· < ·) →
        bookFIFO (orders.foldl addOrder OrderBook.empty) := by
  refine ⟨addOrder_fifo, ?_⟩
  intro orders _
  exact bookFIFO_foldl orders OrderBook.empty
    ⟨fun e he => absurd he (List.not_mem_nil e),
      fun e he => absurd he (List.not_mem_nil e)⟩

/-- First order of the C5 witness scenario. -/
def c5A : Order := ⟨11, 1, 7, "buy", 20, 5, 0, 5, 100⟩

/-- Second order of the C5 witness scenario, same level, later timestamp. -/
def c5B : Order := ⟨12, 2, 7, "buy", 20, 5, 0, 5, 200⟩

/-- Third order of the C5 witness scenario, on the sell side. -/
def c5C : Order := ⟨13, 3, 7, "sell", 22, 5, 0, 5, 300⟩

/-- Witness for C5 at a concrete strictly-timestamp-increasing sequence. -/
theorem C5_fifo_witness :
    bookFIFO ([c5A, c5B, c5C].foldl addOrder OrderBook.empty) :=
  C5_fifo_invariant.2 [c5A, c5B, c5C] (by decide)

/-- Minimum characterization of `List.min?` over the rationals. -/
theorem qmin_spec {l : List ℚ} {a : ℚ} (h : l.min? = some a) :
    a ∈ l ∧ ∀ x ∈ l, a ≤ x := by
  haveI : Std.Antisymm (fun x y : ℚ => x ≤ y) := ⟨fun h₁ h₂ => le_antisymm h₁ h₂⟩
  exact (List.min?_eq_some_iff (fun x => le_refl x) (fun x y => min_choice x y)
    (fun x y z => le_min_iff)).mp h

/-- Maximum characterization of `List.max?` over the rationals. -/
theorem qmax_spec {l : List ℚ} {c : ℚ} (h : l.max? = some c) :
    c ∈ l ∧ ∀ x ∈ l, x ≤ c := by
  haveI : Std.Antisymm (fun x y : ℚ => x ≤ y) := ⟨fun h₁ h₂ => le_antisymm h₁ h₂⟩
  exact (List.max?_eq_some_iff (fun x => le_refl x) (fun x y => max_choice x y)
    (fun x y z => max_le_iff)).mp h

/-- The head of the ascending level sort is a price minimizer. -/
theorem sortedAsc_head {l : List BookLevel} {s : BookLevel} {t : List BookLevel}
    (h : l.insertionSort levelAsc = s :: t) :
    s ∈ l ∧ ∀ x ∈ l, s.price ≤ x.price := by
  have hperm := List.perm_insertionSort levelAsc l
  have hsorted := List.sorted_insertionSort levelAsc l
  rw [h] at hperm hsorted
  refine ⟨hperm.mem_iff.mp (List.mem_cons_self s t), ?_⟩
  intro x hx
  rcases List.mem_cons.mp (hperm.mem_iff.mpr hx) with rfl | hxt
  · exact le_refl _
  · exact (List.pairwise_cons.mp hsorted).1 x hxt

/-- The head of the descending level sort is a price maximizer. -/
theorem sortedDesc_head {l : List BookLevel} {s : BookLevel} {t : List BookLevel}
    (h : l.insertionSort levelDesc = s :: t) :
    s ∈ l ∧ ∀ x ∈ l, x.price ≤ s.price := by
  have hperm := List.perm_insertionSort levelDesc l
  have hsorted := List.sorted_insertionSort levelDesc l
  rw [h] at hperm hsorted
  refine ⟨hperm.mem_iff.mp (List.mem_cons_self s t), ?_⟩
  intro x hx
  rcases List.mem_cons.mp (hperm.mem_iff.mpr hx) with rfl | hxt
  · exact le_refl _
  · exact (List.pairwise_cons.mp hsorted).1 x hxt

/-- Claim C6: `getSnapshot` aggregates one level per stored price level
(price, summed remaining quantity, order count), sorts buy levels by price
descending and sell levels ascending, keeps one output level per side
entry (and so one per distinct price when the side map's keys are
distinct), and its spread equals best (lowest) ask price minus best
(highest) bid price when both sides are non-empty and `0` when either side
is empty. -/
theorem C6_snapshot_spec (b : OrderBook) :
    List.Sorted levelDesc (getSnapshot b).buyLevels
    ∧ List.Sorted levelAsc (getSnapshot b).sellLevels
    ∧ (∀ e ∈ b.buyOrders, aggregateLevel e ∈ (getSnapshot b).buyLevels)
    ∧ (∀ e ∈ b.sellOrders, aggregateLevel e ∈ (getSnapshot b).sellLevels)
    ∧ (getSnapshot b).buyLevels.length = b.buyOrders.length
    ∧ (getSnapshot b).sellLevels.length = b.sellOrders.length
    ∧ ((b.buyOrders.map Prod.fst).Nodup →
        ((getSnapshot b).buyLevels.map BookLevel.price).Nodup)
    ∧ ((b.sellOrders.map Prod.fst).Nodup →
        ((getSnapshot b).sellLevels.map BookLevel.price).Nodup)
    ∧ (∀ a c, (b.sellOrders.map Prod.fst).min? = some a →
        (b.buyOrders.map Prod.fst).max? = some c →
        (getSnapshot b).spread = a - c)
    ∧ ((b.buyOrders = [] ∨ b.sellOrders = []) → (getSnapshot b).spread = 0) := by
  have hpriceB : ((b.buyOrders.map aggregateLevel).map BookLevel.price)
      = b.buyOrders.map Prod.fst := by
    rw [List.map_map]; rfl
  have hpriceS : ((b.sellOrders.map aggregateLevel).map BookLevel.price)
      = b.sellOrders.map Prod.fst := by
    rw [List.map_map]; rfl
  refine ⟨List.sorted_insertionSort levelDesc _,
    List.sorted_insertionSort levelAsc _,
    ?_, ?_, ?_, ?_, ?_, ?_, ?_, ?_⟩
  · intro e he
    exact (List.perm_insertionSort levelDesc _).mem_iff.mpr
      (List.mem_map_of_mem aggregateLevel he)
  · intro e he
    exact (List.perm_insertionSort levelAsc _).mem_iff.mpr
      (List.mem_map_of_mem aggregateLevel he)
  · show ((b.buyOrders.map aggregateLevel).insertionSort levelDesc).length
        = b.buyOrders.length
    rw [(List.perm_insertionSort levelDesc _).length_eq, List.length_map]
  · show ((b.sellOrders.map aggregateLevel).insertionSort levelAsc).length
        = b.sellOrders.length
    rw [(List.perm_insertionSort levelAsc _).length_eq, List.length_map]
  · intro hnd
    have hperm := ((List.perm_insertionSort levelDesc
      (b.buyOrders.map aggregateLevel)).map BookLevel.price)
    rw [hpriceB] at hperm
    exact hperm.nodup_iff.mpr hnd
  · intro hnd
    have hperm := ((List.perm_insertionSort levelAsc
      (b.sellOrders.map aggregateLevel)).map BookLevel.price)
    rw [hpriceS] at hperm
    exact hperm.nodup_iff.mpr hnd
  · intro a c ha hc
    obtain ⟨haMem, haMin⟩ := qmin_spec ha
    obtain ⟨hcMem, hcMax⟩ := qmax_spec hc
    obtain ⟨ea, heaMem, heaEq⟩ := List.mem_map.mp haMem
    obtain ⟨ec, hecMem, hecEq⟩ := List.mem_map.mp hcMem
    cases hsl : (b.sellOrders.map aggregateLevel).insertionSort levelAsc with
    | nil =>
        exfalso
        have := (List.perm_insertionSort levelAsc
          (b.sellOrders.map aggregateLevel)).length_eq
        rw [hsl, List.length_map] at this
        exact absurd (List.length_eq_zero.mp this.symm)
          (List.ne_nil_of_mem heaMem)
    | cons s t =>
      cases hbl : (b.buyOrders.map aggregateLevel).insertionSort levelDesc with
      | nil =>
          exfalso
          have := (List.perm_insertionSort levelDesc
            (b.buyOrders.map aggregateLevel)).length_eq
          rw [hbl, List.length_map] at this
          exact absurd (List.length_eq_zero.mp this.symm)
            (List.ne_nil_of_mem hecMem)
      | cons c0 u =>
        obtain ⟨hsMem, hsMin⟩ := sortedAsc_head hsl
        obtain ⟨hcHead, hcHeadMax⟩ := sortedDesc_head hbl
        have hsa : s.price = a := by
          obtain ⟨es, hesMem, hesEq⟩ := List.mem_map.mp hsMem
          apply le_antisymm
          · have h2 := hsMin (aggregateLevel ea) (List.mem_map_of_mem _ heaMem)
            simpa [aggregateLevel, heaEq] using h2
          · have h1 := haMin es.1 (List.mem_map_of_mem _ hesMem)
            rw [← hesEq]
            exact h1
        have hc0 : c0.price = c := by
          obtain ⟨eb, hebMem, hebEq⟩ := List.mem_map.mp hcHead
          apply le_antisymm
          · have h1 := hcMax eb.1 (List.mem_map_of_mem _ hebMem)
            rw [← hebEq]
            exact h1
          · have h2 := hcHeadMax (aggregateLevel ec) (List.mem_map_of_mem _ hecMem)
            simpa [aggregateLevel, hecEq] using h2
        have : (getSnapshot b).spread = s.price - c0.price := by
          unfold getSnapshot
          simp only [hsl, hbl]
        rw [this, hsa, hc0]
  · intro hemp
    rcases hemp with h | h
    · unfold getSnapshot
      rcases hmatch : (b.sellOrders.map aggregateLevel).insertionSort levelAsc with
        _ | ⟨s, t⟩ <;> simp [h, hmatch, List.insertionSort]
    · unfold getSnapshot
      simp [h, List.insertionSort]

/-- Concrete book for the C6 witness: one bid at 25, asks at 30 and 28. -/
def c6Book : OrderBook :=
  addOrder (addOrder (addOrder OrderBook.empty ⟨21, 1, 7, "buy", 25, 10, 0, 10, 100⟩)
    ⟨22, 2, 7, "sell", 30, 4, 0, 4, 200⟩) ⟨23, 3, 7, "sell", 28, 6, 0, 6, 300⟩

/-- Witness for C6: at the concrete book the spread equals the lowest ask
price (28) minus the highest bid price (25). -/
theorem C6_snapshot_witness : (getSnapshot c6Book).spread = 28 - 25 := by
  obtain ⟨-, -, -, -, -, -, -, -, hspread, -⟩ := C6_snapshot_spec c6Book
  exact hspread 28 25 (by decide) (by decide)

/-- Window membership per the spec's words for VWAP: a trade counts when
its timestamp is at or after `now - timeWindow` and it belongs to the
instrument. -/
def specInWindow (creditId : Nat) (now timeWindow : ℤ) (t : PETrade) : Bool :=
  decide (now - timeWindow ≤ t.timestamp) && decide (t.creditId = creditId)

/-- Claim C7 counterexample: a single in-window trade of quantity 0 makes
`getVWAP` return the "no data" sentinel even though at least one matching
trade exists, so "returns Σ(price×qty)/Σ(qty) whenever at least one trade
is in the window" fails (the code's extra `totalQuantity > 0` guard fires,
which is also what keeps it from dividing by zero there). -/
theorem C7_counterexample :
    getVWAP [⟨5, 0, 100, 1⟩] 1 100 50 = none
    ∧ ([⟨5, 0, 100, 1⟩] : List PETrade).filter (specInWindow 1 100 50)
        = [⟨5, 0, 100, 1⟩] := by
  refine ⟨?_, by decide⟩
  norm_num [getVWAP, List.filter]

/-- Claim C7 (amended): `getVWAP` returns `Σ(price×qty)/Σ(qty)` over the
in-window trades of the instrument when at least one such trade exists AND
their total quantity is positive; it returns the `none` sentinel exactly
when there is no such trade or the total quantity is not positive — so it
never divides by zero. -/
theorem C7_vwap_amended (trades : List PETrade) (creditId : Nat)
    (now timeWindow : ℤ) :
    (getVWAP trades creditId now timeWindow = none ↔
      trades.filter (specInWindow creditId now timeWindow) = []
        ∨ ((trades.filter (specInWindow creditId now timeWindow)).map
            PETrade.quantity).sum ≤ 0)
    ∧ (trades.filter (specInWindow creditId now timeWindow) ≠ [] →
        0 < ((trades.filter (specInWindow creditId now timeWindow)).map
            PETrade.quantity).sum →
        getVWAP trades creditId now timeWindow =
          some (((trades.filter (specInWindow creditId now timeWindow)).map
              (fun t => t.price * t.quantity)).sum
            / ((trades.filter (specInWindow creditId now timeWindow)).map
                PETrade.quantity).sum)) := by
  have hfe : trades.filter
      (fun t => decide (t.creditId = creditId)
        && decide (now - timeWindow ≤ t.timestamp))
      = trades.filter (specInWindow creditId now timeWindow) := by
    apply List.filter_congr
    intro x _
    unfold specInWindow
    exact Bool.and_comm _ _
  have key : getVWAP trades creditId now timeWindow =
      if (trades.filter (specInWindow creditId now timeWindow)).isEmpty then none
      else if 0 < ((trades.filter (specInWindow creditId now timeWindow)).map
          PETrade.quantity).sum
      then some (((trades.filter (specInWindow creditId now timeWindow)).map
            (fun t => t.price * t.quantity)).sum
          / ((trades.filter (specInWindow creditId now timeWindow)).map
              PETrade.quantity).sum)
      else none := by
    simp only [getVWAP]
    rw [hfe]
  rw [key]
  by_cases hemp : (trades.filter (specInWindow creditId now timeWindow)).isEmpty
  · have hnil : trades.filter (specInWindow creditId now timeWindow) = [] :=
      List.isEmpty_iff.mp hemp
    simp [hemp, hnil]
  · have hne : trades.filter (specInWindow creditId now timeWindow) ≠ [] := by
      simpa [List.isEmpty_iff] using hemp
    rw [Bool.not_eq_true] at hemp
    rw [hemp]
    by_cases hq : 0 < ((trades.filter (specInWindow creditId now timeWindow)).map
        PETrade.quantity).sum
    · simp [hq, hne, not_le.mpr hq]
    · simp [hq, hne, le_of_not_lt hq]

/-- Claim C8 counterexample: two trades both inside the 50-tick window
(timestamps 60 and 70, cutoff 50) make `getPriceChange` return the "no
data" sentinel even though 2 trades are in range, because the code's
baseline is `trades.find(t => t.timestamp <= cutoff)` — a trade at or
BEFORE the window boundary, not the oldest trade within the window. -/
theorem C8_counterexample :
    getPriceChange [⟨100, 1, 60, 1⟩, ⟨110, 1, 70, 1⟩] 100 50 = none
    ∧ ([⟨100, 1, 60, 1⟩, ⟨110, 1, 70, 1⟩] : List PETrade).filter
        (fun t => decide (100 - 50 ≤ t.timestamp))
        = [⟨100, 1, 60, 1⟩, ⟨110, 1, 70, 1⟩] := by
  refine ⟨by decide, by decide⟩

/-- Claim C8 (amended): with at least 2 recorded trades, `getPriceChange`
returns last price minus the price of the FIRST recorded trade whose
timestamp is at or before `now - timeWindow` (the baseline at or before
the window boundary), in absolute and percentage form relative to that
baseline, provided the last price is non-zero; and it returns the sentinel
whenever every recorded trade is strictly inside the window (in
particular there is no baseline trade). -/
theorem C8_price_change_amended :
    (∀ (pre post : List PETrade) (h : PETrade) (now timeWindow : ℤ) (c : ℚ),
      2 ≤ (pre ++ h :: post).length →
      (∀ t ∈ pre, now - timeWindow < t.timestamp) →
      h.timestamp ≤ now - timeWindow →
      getLastPrice (pre ++ h :: post) = some c →
      c ≠ 0 →
      getPriceChange (pre ++ h :: post) now timeWindow =
        some ⟨c - h.price, (c - h.price) / h.price * 100⟩)
    ∧ ∀ (trades : List PETrade) (now timeWindow : ℤ),
      (∀ t ∈ trades, now - timeWindow < t.timestamp) →
      getPriceChange trades now timeWindow = none := by
  constructor
  · intro pre post h now timeWindow c hlen hpre hcut hlast hc0
    simp only [getPriceChange]
    rw [if_neg (by omega)]
    have hfindPre : pre.find? (fun t => decide (t.timestamp ≤ now - timeWindow))
        = none := by
      rw [List.find?_eq_none]
      intro t ht
      simpa using not_le.mpr (hpre t ht)
    rw [List.find?_append, hfindPre, Option.none_or,
      List.find?_cons_of_pos _ (by simpa using hcut), hlast]
    exact if_neg hc0
  · intro trades now timeWindow hall
    simp only [getPriceChange]
    by_cases hlen : trades.length < 2
    · rw [if_pos hlen]
    · rw [if_neg hlen]
      have hfind : trades.find? (fun t => decide (t.timestamp ≤ now - timeWindow))
          = none := by
        rw [List.find?_eq_none]
        intro t ht
        simpa using not_le.mpr (hall t ht)
      rw [hfind]

/-- Witness for C8 (amended): baseline trade at timestamp 20 (at or before
the cutoff 50), last price 110, change 10 points = 10 percent. -/
theorem C8_amended_witness :
    getPriceChange [⟨100, 1, 20, 1⟩, ⟨110, 1, 70, 1⟩] 100 50
      = some ⟨10, 10⟩ := by
  have h := C8_price_change_amended.1 [] [⟨110, 1, 70, 1⟩] ⟨100, 1, 20, 1⟩
    100 50 110 (by decide) (by simp) (by decide) (by decide) (by norm_num)
  simp only [List.nil_append] at h
  rw [h]
  norm_num [Option.some.injEq, PriceChange.mk.injEq]

/-- Witness for C7 (amended): one in-window trade of quantity 2 at price 5
gives VWAP 5. -/
theorem C7_vwap_witness : getVWAP [⟨5, 2, 100, 1⟩] 1 100 50 = some 5 := by
  have h := (C7_vwap_amended [⟨5, 2, 100, 1⟩] 1 100 50).2 (by decide)
    (by norm_num [List.filter, specInWindow])
  rw [h]
  norm_num [List.filter, specInWindow]

/-- Sum of squared deviations from `m`, expanded into moments. -/
theorem sum_sq_dev (m : ℚ) : ∀ l : List ℚ,
    (l.map (fun p => (p - m) ^ 2)).sum
      = (l.map (fun p => p ^ 2)).sum - 2 * m * l.sum + l.length * m ^ 2
  | [] => by simp
  | a :: t => by
    simp only [List.map_cons, List.sum_cons, List.length_cons, sum_sq_dev m t]
    push_cast
    ring

/-- Claim C9 counterexample: on the two-point window `[0, 2]` the worker's
variance is `1` (divisor `n = 2`) while the sample variance of the claim
is `2` (divisor `n − 1 = 1`).  The volatility the worker returns is
`Math.sqrt` of its variance, so it is `√1 = 1`, while the claimed sample
standard deviation is `√2 ≠ 1`: the claim fails at this window. -/
theorem C9_counterexample :
    calculateVolatilityVariance [0, 2] = 1 ∧ specSampleVariance [0, 2] = 2
    ∧ calculateVolatilityVariance [0, 2] ≠ specSampleVariance [0, 2] := by
  refine ⟨?_, ?_, ?_⟩ <;>
    norm_num [calculateVolatilityVariance, specSampleVariance]

/-- Claim C9 (amended): the worker's volatility is the POPULATION standard
deviation of the window — the variance under its square root equals
`Σ p²/n − mean²` (divisor `n`, not `n − 1`) — and the moving average at
`index` is the arithmetic mean of the trailing `min(5, index+1)`-point
window ending at `index`. -/
theorem C9_volatility_amended :
    (∀ prices : List ℚ, 2 ≤ prices.length →
      calculateVolatilityVariance prices = specPopVariance prices)
    ∧ ∀ (rawData : List ℚ) (index : Nat), index < rawData.length →
        movingAverageAt rawData index =
          (specTrailingWindow rawData index).sum
            / ((specTrailingWindow rawData index).length : ℚ)
        ∧ (specTrailingWindow rawData index).length = min 5 (index + 1) := by
  constructor
  · intro prices hlen
    have hn : (prices.length : ℚ) ≠ 0 := by
      have h2 : 0 < prices.length := by omega
      exact_mod_cast Nat.pos_iff_ne_zero.mp h2
    simp only [calculateVolatilityVariance, specPopVariance]
    rw [if_neg (by omega), sum_sq_dev]
    field_simp
    ring
  · intro rawData index hidx
    have hstart : ((max 0 ((index : ℤ) - min 5 ((index : ℤ) + 1) + 1)).toNat)
        = index + 1 - 5 := by omega
    constructor
    · simp only [movingAverageAt, specTrailingWindow]
      rw [hstart]
    · simp only [specTrailingWindow]
      rw [List.length_drop, List.length_take]
      omega

/-- Witness for C9 (amended) at the counterexample window and a 3-point
series. -/
theorem C9_amended_witness :
    calculateVolatilityVariance [0, 2] = specPopVariance [0, 2]
    ∧ movingAverageAt [1, 2, 3] 1
        = (specTrailingWindow [1, 2, 3] 1).sum
          / ((specTrailingWindow [1, 2, 3] 1).length : ℚ) :=
  ⟨C9_volatility_amended.1 [0, 2] (by decide),
    (C9_volatility_amended.2 [1, 2, 3] 1 (by decide)).1⟩

/-- Claim C10 counterexample: on the order book whose buy and sell level
lists are both empty (the destructuring default for a missing field), the
divisor `buyDepth + sellDepth` of the imbalance computation is `0`, so the
JS expression `buyDepth / (buyDepth + sellDepth) - 0.5` evaluates `0 / 0`
(`NaN`), not a well-defined number in `[-0.5, 0.5]`. -/
theorem C10_counterexample :
    depthOf ([] : List BookLevel) + depthOf ([] : List BookLevel) = 0 := by
  norm_num [depthOf]

/-- Claim C10 (amended): whenever the total depth is non-zero — in
particular on any book with nonnegative level quantities and at least one
positive one — the divisor is non-zero and the imbalance lies in
`[-1/2, 1/2]`; the all-empty book is the exception where the divisor is
`0`. -/
theorem C10_imbalance_amended (buyLevels sellLevels : List BookLevel)
    (hb : ∀ l ∈ buyLevels, 0 ≤ l.quantity)
    (hs : ∀ l ∈ sellLevels, 0 ≤ l.quantity)
    (hne : depthOf buyLevels + depthOf sellLevels ≠ 0) :
    -(1 / 2) ≤ orderImbalance buyLevels sellLevels
    ∧ orderImbalance buyLevels sellLevels ≤ 1 / 2 := by
  have hB : 0 ≤ depthOf buyLevels := List.sum_nonneg (by
    intro x hx
    obtain ⟨l, hl, rfl⟩ := List.mem_map.mp hx
    exact hb l hl)
  have hS : 0 ≤ depthOf sellLevels := List.sum_nonneg (by
    intro x hx
    obtain ⟨l, hl, rfl⟩ := List.mem_map.mp hx
    exact hs l hl)
  have hpos : 0 < depthOf buyLevels + depthOf sellLevels :=
    lt_of_le_of_ne (by linarith) (Ne.symm hne)
  have h01 : 0 ≤ depthOf buyLevels / (depthOf buyLevels + depthOf sellLevels) :=
    div_nonneg hB (le_of_lt hpos)
  have h1 : depthOf buyLevels / (depthOf buyLevels + depthOf sellLevels) ≤ 1 :=
    (div_le_one hpos).mpr (by linarith)
  unfold orderImbalance
  constructor <;> linarith

/-- Witness for C10 (amended): book with buy depth 3 and sell depth 1. -/
theorem C10_imbalance_witness :
    -(1 / 2) ≤ orderImbalance [⟨5, 3, 1⟩] [⟨6, 1, 1⟩]
    ∧ orderImbalance [⟨5, 3, 1⟩] [⟨6, 1, 1⟩] ≤ 1 / 2 :=
  C10_imbalance_amended [⟨5, 3, 1⟩] [⟨6, 1, 1⟩] (by decide) (by decide)
    (by norm_num [depthOf])
